import Mathlib

/-!
Verification of the ring-keyboard controller (`main.go`) against its
specification.  The Go program is shallowly embedded: strings are lists of
characters, the mutable `Game` fields touched by the text pipeline are grouped
into explicit state records, and each input-handling branch of `Game.Update`
becomes a pure state-transition function.  Float64 arithmetic of the analog
stick decoder is idealised as real arithmetic; times are integer nanoseconds
as in Go's `time.Time`.
-/

namespace Control

/-- Go strings are modelled as lists of characters (the program only ever
feeds ASCII and the two ring glyphs through them, so byte indexing in the
source coincides with character indexing here). -/
abbrev Str := List Char

/-- The apostrophe character (code point 39), kept as a named constant. -/
def apos : Char := Char.ofNat 39

/-- `strings.ToLower` restricted to ASCII, which is the alphabet the program
emits: uppercase ASCII letters are shifted to lowercase, everything else is
unchanged. -/
def asciiToLower (c : Char) : Char :=
  if 'A' ≤ c ∧ c ≤ 'Z' then Char.ofNat (c.toNat + 32) else c

/-- `strings.ToLower` on a whole word. -/
def lowerStr (s : Str) : Str := s.map asciiToLower

/-- `unicode.IsSpace` restricted to the ASCII whitespace the program can
produce: space, tab, newline, carriage return, vertical tab, form feed. -/
def isSpaceChar (c : Char) : Bool :=
  c = ' ' || c = '\t' || c = '\n' || c = '\r' || c = Char.ofNat 11 || c = Char.ofNat 12

/-- `strings.FieldsFunc`: split at every character satisfying `p` and return
the non-empty fields. -/
def goFieldsFunc (p : Char → Bool) (s : Str) : List Str :=
  (List.splitOnP p s).filter (fun w => w ≠ [])

/-- `strings.Fields`: split on whitespace. -/
def goFields (s : Str) : List Str := goFieldsFunc isSpaceChar s

/-- The sentence-ending characters of `loadRawTextAndTrain`
(main.go lines 157-159): period, bang, question mark, newline. -/
def sentenceEnd (c : Char) : Bool := c = '.' || c = '!' || c = '?' || c = '\n'

/-- `strings.TrimSpace`. -/
def trimSpace (s : Str) : Str :=
  ((s.dropWhile isSpaceChar).reverse.dropWhile isSpaceChar).reverse

/-- The cutset of `strings.TrimRight(word, ",.;:\"'!?")` in
`loadRawTextAndTrain` (main.go line 176); note it contains the apostrophe. -/
def trailingCut : List Char := [',', '.', ';', ':', '"', apos, '!', '?']

/-- The cutset of `strings.TrimLeft(word, "\"'")` (main.go line 178): only
double quote and apostrophe. -/
def leadingCut : List Char := ['"', apos]

/-- `strings.TrimRight` with a cutset: strip trailing characters that are in
the set. -/
def trimRightSet (cut : List Char) (s : Str) : Str :=
  (s.reverse.dropWhile (fun c => cut.contains c)).reverse

/-- `strings.TrimLeft` with a cutset: strip leading characters that are in
the set. -/
def trimLeftSet (cut : List Char) (s : Str) : Str :=
  s.dropWhile (fun c => cut.contains c)

/-- The per-word cleanup of `loadRawTextAndTrain` (main.go lines 174-178):
trailing characters from `",.;:\"'!?"` are removed, then leading characters
from `"\"'"`. -/
def cleanWord (w : Str) : Str := trimLeftSet leadingCut (trimRightSet trailingCut w)

/-- One iteration of the sentence loop of `loadRawTextAndTrain`
(main.go lines 162-193), accumulating the sequences handed to
`markovChain.Add` and the words whose `wordFrequency` count is bumped.
A sentence is trimmed and skipped when empty; only sentences with more than
one whitespace token are processed; each token is cleaned, dropped when
empty, case-folded; the cleaned sequence goes to the chain only when it
still has more than one word, while every cleaned word is counted. -/
def trainStep (acc : List (List Str) × List Str) (sentence : Str) :
    List (List Str) × List Str :=
  let s := trimSpace sentence
  if s = [] then acc
  else
    let words := goFields s
    if words.length > 1 then
      let cleanWords := ((words.map cleanWord).filter (fun w => w ≠ [])).map lowerStr
      (if cleanWords.length > 1 then acc.1 ++ [cleanWords] else acc.1,
       acc.2 ++ cleanWords)
    else acc

/-- The raw-text parse of `loadRawTextAndTrain` (main.go lines 150-193):
split the logged text into sentences at `.`, `!`, `?` and newline, then run
the sentence loop.  Result: the token sequences added to the transition
model (first component) and the words counted into the frequency model
(second component). -/
def processRawText (text : Str) : List (List Str) × List Str :=
  (goFieldsFunc sentenceEnd text).foldl trainStep ([], [])

/-- `loadRawTextAndTrain` including its file handling (main.go lines
134-154): an absent file (`none`) and an empty file both train nothing and
are not errors. -/
def loadRawTextAndTrain (file : Option Str) : List (List Str) × List Str :=
  match file with
  | none => ([], [])
  | some text => if text = [] then ([], []) else processRawText text

/-- Spec-side reformulation of the amended startup-parse description: each
sentence is processed independently and the per-sentence results are
concatenated.  Stated per the spec's wording to be compared with
`processRawText`, which follows the source's accumulating loop. -/
def processSentenceSpec (sentence : Str) : List (List Str) × List Str :=
  let s := trimSpace sentence
  if s = [] then ([], [])
  else
    let words := goFields s
    if words.length > 1 then
      let cleanWords := ((words.map cleanWord).filter (fun w => w ≠ [])).map lowerStr
      (if cleanWords.length > 1 then [cleanWords] else [], cleanWords)
    else ([], [])

/-- Spec-side reformulation of the whole startup parse (see
`processSentenceSpec`). -/
def specProcessRaw (text : Str) : List (List Str) × List Str :=
  let parts := (goFieldsFunc sentenceEnd text).map processSentenceSpec
  ((parts.map Prod.fst).flatten, (parts.map Prod.snd).flatten)

/-- The built-in seed sentences (main.go lines 327-350), verbatim, including
the uppercase word `I`. -/
def seedSentencesS : List (List String) :=
  [["hello", "world"],
   ["how", "are", "you"],
   ["the", "quick", "brown", "fox"],
   ["I", "am", "fine"],
   ["thank", "you", "very", "much"],
   ["what", "is", "your", "name"],
   ["nice", "to", "meet", "you"],
   ["have", "a", "good", "day"],
   ["see", "you", "later"],
   ["good", "morning"],
   ["good", "afternoon"],
   ["good", "evening"],
   ["ok", "thanks"],
   ["ok", "I", "will"],
   ["ok", "let", "me", "check"],
   ["ok", "sounds", "good"],
   ["yes", "I", "agree"],
   ["no", "thank", "you"],
   ["please", "help", "me"],
   ["can", "you", "help"],
   ["this", "is", "great"],
   ["that", "is", "awesome"]]

/-- The seed sentences as character lists. -/
def seedSentences : List (List Str) := seedSentencesS.map (fun s => s.map String.toList)

/-- `Game.loadTrainingData` (main.go lines 90-108) on already-decoded file
contents: an absent file (`none`, Go's `os.IsNotExist` branch) yields the
empty corpus and a nil error; a present, well-formed file yields its
sentences. -/
def loadTrainingData (file : Option (List (List Str))) : Except String (List (List Str)) :=
  match file with
  | none => Except.ok []
  | some td => Except.ok td

/-- The predictor state built during initialisation: the training-sentence
list, the token sequences handed to `markovChain.Add`, and the (case-folded)
words counted into `wordFrequency`.  The gomarkov chain is modelled
extensionally by the list of sequences passed to `Add`; the frequency map by
the list of recorded words (the count of a word is its number of
occurrences). -/
structure Models where
  trainingData : List (List Str)
  chainAdds : List (List Str)
  freqAdds : List Str

/-- The Markov-chain initialisation block of `Game.Update` (main.go lines
316-361): load the sentence file (a load error leaves the list empty), fall
back to the seed sentences when the list is empty, then `Add` every sentence
to the chain and bump `wordFrequency[strings.ToLower(word)]` for each of its
words. -/
def initModels (file : Option (List (List Str))) : Models :=
  let td0 := match loadTrainingData file with
    | Except.ok td => td
    | Except.error _ => []
  let td := if td0.length = 0 then seedSentences else td0
  { trainingData := td
    chainAdds := td
    freqAdds := (td.map (fun s => s.map lowerStr)).flatten }

/-- The context tokens (keys) an order-1 gomarkov chain stores for a list of
`Add` calls: inside each added sequence, every token except the last acts as
the context of a two-token adjacency. -/
def chainContextTokens (adds : List (List Str)) : List Str :=
  (adds.map List.dropLast).flatten

/-- The ring layout `g.rings` (main.go lines 373-398): two sets, each with a
16-token inner ring and a 26-token outer ring.  The `\x7b`/`\x7d` and `\x27`
escapes denote the literal brace and apostrophe tokens of the source. -/
def ringsS : ℕ → ℕ → List String
  | 0, 0 => ["0", "1", "2", "3", "4", "5", "6", "7", "8", "9",
             ".", ",", "-", "_", "⌫", "↵"]
  | 0, 1 => ["A", "B", "C", "D", "E", "F", "G", "H", "I", "J",
             "K", "L", "M", "N", "O", "P", "Q", "R", "S", "T",
             "U", "V", "W", "X", "Y", "Z"]
  | 1, 0 => ["(", ")", "[", "]", "\x7b", "\x7d", "<", ">", "\x27", "\"",
             "`", "~", "!", "?", "⌫", "↵"]
  | 1, 1 => ["+", "-", "*", "/", "=", "!=", "==", "&&", "||", "%",
             "&", "|", "^", "<<", ">>", "@", "#", "$", ":", ";",
             "\\", ".", ",", "_", "->", "=>"]
  | _, _ => []

/-- The ring layout with tokens as character lists. -/
def rings (s r : ℕ) : List Str := (ringsS s r).map String.toList

/-- The selection state mutated by the left-stick decoder: `g.selectedRing`,
`g.selectedIndex`, `g.joystickAngle`. -/
structure SelState where
  selectedRing : ℕ
  selectedIndex : ℤ
  joystickAngle : ℝ

/-- Go's `math.Atan2(y, x)`: the angle of the point `(x, y)`, modelled by
the complex argument, with range `(-π, π]` and `atan2 0 0 = 0` exactly as in
Go. -/
noncomputable def atan2 (y x : ℝ) : ℝ := Complex.arg ⟨x, y⟩

/-- The angle normalisation of main.go lines 498-500: add `2π` when the
angle is negative. -/
noncomputable def normalizeAngle (a : ℝ) : ℝ := if a < 0 then a + 2 * Real.pi else a

/-- Go's `int(r)` conversion of a float: truncation toward zero. -/
noncomputable def goTruncInt (r : ℝ) : ℤ := if 0 ≤ r then ⌊r⌋ else -⌊-r⌋

/-- The left-stick decoder of `Game.Update` (main.go lines 480-507),
idealising float64 as real arithmetic.  When the magnitude
`√(x²+y²)` exceeds the dead zone `0.1`: magnitudes below `0.9` select the
inner ring and the rest the outer ring; the angle is `atan2(x, -y)`
normalised into `[0, 2π)`; the index is the truncated quotient by the
segment angle `2π/len`, reduced mod the active ring's length (`%` agrees
with Go's remainder here because both operands are non-negative).  At or
below the dead zone the previous selection state is kept unchanged. -/
noncomputable def updateSel (s : SelState) (currentSet : ℕ) (x y : ℝ) : SelState :=
  let magnitude := Real.sqrt (x * x + y * y)
  if magnitude > 0.1 then
    let ring := if magnitude < 0.9 then 0 else 1
    let angle := normalizeAngle (atan2 x (-y))
    let currentRing := rings currentSet ring
    let segmentAngle := 2 * Real.pi / (currentRing.length : ℝ)
    { selectedRing := ring
      selectedIndex := goTruncInt (angle / segmentAngle) % (currentRing.length : ℤ)
      joystickAngle := angle }
  else s

/-- A sequence of decoder ticks: each entry is the active character set and
the stick axes sampled on that frame. -/
noncomputable def updateSelSeq (s : SelState) (inps : List (ℕ × ℝ × ℝ)) : SelState :=
  inps.foldl (fun st p => updateSel st p.1 p.2.1 p.2.2) s

/-- A concrete selection state (the zero value of the Go struct fields). -/
def initSel : SelState := ⟨0, 0, 0⟩

/-- Effects emitted to the OS keystroke-injection collaborator:
`robotgo.TypeStr` and `robotgo.KeyTap`. -/
inductive Emit where
  | typeStr (s : Str)
  | keyTap (k : Str)
deriving DecidableEq

/-- The named key of `robotgo.KeyTap("backspace")`. -/
def keyBackspace : Str := "backspace".toList

/-- The named key of `robotgo.KeyTap("enter")`. -/
def keyEnter : Str := "enter".toList

/-- The `Game` fields touched by the commit/edit paths: `lastButtonTime`
(integer nanoseconds, as in `time.Time`), `currentSentence`, the chain and
frequency models (see `Models`), `trainingData`, the raw text log appended
by `appendToRawText`, and the `uppercase` modifier. -/
structure KeyState where
  lastButtonTime : ℤ
  currentSentence : List Str
  chainAdds : List (List Str)
  trainingData : List (List Str)
  freqAdds : List Str
  rawLog : Str
  uppercase : Bool
deriving DecidableEq

/-- The backspace buffer edit, shared verbatim by the ring `⌫` branch
(main.go lines 529-538) and the B-button handler (main.go lines 598-607):
when the buffer is non-empty and its last word is non-empty, the word loses
its last character, and if it thereby becomes empty it is removed from the
buffer (with no further condition); otherwise the buffer is untouched. -/
def backspaceBuffer (cs : List Str) : List Str :=
  match cs.getLast? with
  | none => cs
  | some lastWord =>
    if lastWord.length > 0 then
      if lastWord.dropLast = [] then cs.dropLast
      else cs.dropLast ++ [lastWord.dropLast]
    else cs

/-- The sentence-commit block shared by the ring `↵` branch (main.go lines
546-560) and the Y-button handler (main.go lines 636-650): when the current
sentence has more than one word it is added to the chain as typed, appended
to the training data, and each of its non-empty words is counted into the
frequency map case-folded; in every case the sentence buffer is then
cleared. -/
def commitSentence (st : KeyState) : KeyState :=
  let st1 :=
    if st.currentSentence.length > 1 then
      { st with
          chainAdds := st.chainAdds ++ [st.currentSentence]
          trainingData := st.trainingData ++ [st.currentSentence]
          freqAdds := st.freqAdds ++
            (st.currentSentence.filter (fun w => w ≠ [])).map lowerStr }
    else st
  { st1 with currentSentence := [] }

/-- The test `len(selectedChar) == 1 && selectedChar >= "A" && selectedChar
<= "Z"` (main.go line 564). -/
def isUpperLetterTok (s : Str) : Bool :=
  match s with
  | [c] => decide ('A' ≤ c ∧ c ≤ 'Z')
  | _ => false

/-- Appending emitted text to the word in progress (main.go line 584). -/
def appendToLastWord (cs : List Str) (t : Str) : List Str :=
  match cs.getLast? with
  | none => cs
  | some w => cs.dropLast ++ [w ++ t]

/-- The debounce window `200 * time.Millisecond` in nanoseconds
(main.go line 521). -/
def debounceNs : ℤ := 200 * 1000000

/-- The dead-zone threshold `0.1` of the commit path (main.go line 522),
as an exact rational. -/
def deadZoneQ : ℚ := mkRat 1 10

/-- The action on the selected character once a confirm press has passed
the debounce, dead-zone and bounds checks (main.go lines 526-588): `⌫`
taps backspace and applies the buffer edit; `↵` taps enter, logs a newline
and commits the sentence; any other token is emitted (case-transformed when
it is an uppercase letter and the uppercase modifier is off), logged, and
appended to the word in progress (seeding the buffer with one empty word
when it was empty).  Every branch stamps `lastButtonTime` with the press
time and emits exactly one OS event. -/
def confirmAction (st : KeyState) (now : ℤ) (selectedChar : Str) : KeyState × List Emit :=
  if selectedChar = "⌫".toList then
    ({ st with
        currentSentence := backspaceBuffer st.currentSentence
        lastButtonTime := now },
     [Emit.keyTap keyBackspace])
  else if selectedChar = "↵".toList then
    let st1 := commitSentence { st with rawLog := st.rawLog ++ ['\n'] }
    ({ st1 with lastButtonTime := now }, [Emit.keyTap keyEnter])
  else
    let outputChar :=
      if isUpperLetterTok selectedChar then
        if st.uppercase then selectedChar else lowerStr selectedChar
      else selectedChar
    let cs := if st.currentSentence.length = 0 then [([] : Str)]
              else st.currentSentence
    ({ st with
        currentSentence := appendToLastWord cs outputChar
        rawLog := st.rawLog ++ outputChar
        lastButtonTime := now },
     [Emit.typeStr outputChar])

/-- The confirm-press handler (main.go lines 518-592): a press is dropped
silently unless more than the debounce window has passed since
`lastButtonTime`, the stick magnitude exceeds the dead zone, and the
selected index is within the active ring; otherwise the selected character
is acted upon.  The magnitude is the already-computed stick magnitude,
carried here as an exact rational so the machine stays executable. -/
def confirmPress (st : KeyState) (now : ℤ) (magnitude : ℚ)
    (currentSet selectedRing selectedIndex : ℕ) : KeyState × List Emit :=
  if now - st.lastButtonTime > debounceNs then
    if magnitude > deadZoneQ then
      if selectedIndex < (rings currentSet selectedRing).length then
        confirmAction st now ((rings currentSet selectedRing).getD selectedIndex [])
      else (st, [])
    else (st, [])
  else (st, [])

/-- A concrete key state (the zero value of the Go struct fields). -/
def st0 : KeyState := ⟨0, [], [], [], [], [], false⟩

/-- The R2 prediction-acceptance handler (main.go lines 682-730): with a
non-empty suggestion, if there is a non-empty word in progress and the
case-folded suggestion starts with the case-folded word, only the untyped
remainder plus a space is typed; if it does not, one backspace per typed
character is tapped first and the whole suggestion plus a space is typed;
with no word in progress the whole suggestion plus a space is typed.  The
typed text is logged, and the buffer ends with the suggestion followed by a
fresh empty word. -/
def acceptPrediction (st : KeyState) (pred : Str) : KeyState × List Emit :=
  if pred = [] then (st, [])
  else
    let p :=
      if st.currentSentence ≠ [] ∧ st.currentSentence.getLast?.getD [] ≠ [] then
        let currentWord := st.currentSentence.getLast?.getD []
        if (lowerStr currentWord).isPrefixOf (lowerStr pred) then
          (([] : List Emit), pred.drop currentWord.length ++ [' '])
        else
          (List.replicate currentWord.length (Emit.keyTap keyBackspace), pred ++ [' '])
      else ([], pred ++ [' '])
    let emits := p.1 ++ [Emit.typeStr p.2]
    let newSentence :=
      if st.currentSentence = [] then [pred, []]
      else if st.currentSentence.getLast?.getD [] = [] then
        st.currentSentence.dropLast ++ [pred, []]
      else st.currentSentence.dropLast ++ [pred, []]
    ({ st with
        currentSentence := newSentence
        rawLog := st.rawLog ++ p.2 },
     emits)

/-- A concrete key state whose word in progress is `mo`. -/
def stM : KeyState := ⟨0, [['m', 'o']], [], [], [], [], false⟩

/-! Helper lemmas -/

theorem trainStep_eq (acc : List (List Str) × List Str) (s : Str) :
    trainStep acc s =
      (acc.1 ++ (processSentenceSpec s).1, acc.2 ++ (processSentenceSpec s).2) := by
  simp only [trainStep, processSentenceSpec]
  split_ifs <;> simp

theorem foldl_trainStep (l : List Str) (acc : List (List Str) × List Str) :
    l.foldl trainStep acc =
      (acc.1 ++ ((l.map processSentenceSpec).map Prod.fst).flatten,
       acc.2 ++ ((l.map processSentenceSpec).map Prod.snd).flatten) := by
  induction l generalizing acc with
  | nil => simp
  | cons s t ih =>
    rw [List.foldl_cons, ih, trainStep_eq]
    simp

theorem processRawText_eq_spec (text : Str) : processRawText text = specProcessRaw text := by
  unfold processRawText specProcessRaw
  rw [foldl_trainStep]
  simp

theorem processRawText_chain_folded (text : Str) (s : List Str)
    (hs : s ∈ (processRawText text).1) : ∃ ws : List Str, s = ws.map lowerStr := by
  rw [processRawText_eq_spec] at hs
  simp only [specProcessRaw, List.mem_flatten, List.mem_map] at hs
  obtain ⟨l, ⟨⟨q, ⟨sent, _, rfl⟩, rfl⟩, hmem⟩⟩ := hs
  simp only [processSentenceSpec] at hmem
  split_ifs at hmem with h1 h2 h3
  · simp at hmem
  · rw [List.mem_singleton] at hmem
    exact ⟨_, hmem⟩
  · simp at hmem
  · simp at hmem

theorem chain_context_folded (text : Str) (w : Str)
    (hw : w ∈ chainContextTokens (processRawText text).1) :
    ∃ w₀ : Str, w = lowerStr w₀ := by
  simp only [chainContextTokens, List.mem_flatten, List.mem_map] at hw
  obtain ⟨l, ⟨⟨s, hs, rfl⟩, hmem⟩⟩ := hw
  obtain ⟨ws, rfl⟩ := processRawText_chain_folded text s hs
  have hmem2 : w ∈ List.map lowerStr ws := List.dropLast_subset _ hmem
  obtain ⟨w₀, _, rfl⟩ := List.mem_map.mp hmem2
  exact ⟨w₀, rfl⟩

theorem normalizeAngle_arg_nonneg (z : ℂ) : 0 ≤ normalizeAngle (Complex.arg z) := by
  unfold normalizeAngle
  split
  · have h := Complex.neg_pi_lt_arg z
    have hpi := Real.pi_pos
    linarith
  · linarith [not_lt.mp (by assumption)]

theorem normalizeAngle_arg_lt (z : ℂ) : normalizeAngle (Complex.arg z) < 2 * Real.pi := by
  unfold normalizeAngle
  have h := Complex.arg_le_pi z
  have hpi := Real.pi_pos
  split
  · linarith
  · linarith

theorem updateSel_deadzone (s : SelState) (cset : ℕ) (x y : ℝ)
    (h : Real.sqrt (x * x + y * y) ≤ 0.1) : updateSel s cset x y = s := by
  unfold updateSel
  rw [if_neg (by simpa using not_lt.mpr h)]

theorem sqrt_boundary : Real.sqrt ((0.9 : ℝ) * 0.9 + 0 * 0) = 0.9 := by
  rw [show ((0.9 : ℝ) * 0.9 + 0 * 0) = 0.9 ^ 2 by ring]
  exact Real.sqrt_sq (by norm_num)

theorem confirmAction_one (st : KeyState) (now : ℤ) (c : Str) :
    (confirmAction st now c).2.length = 1 ∧
    (confirmAction st now c).1.lastButtonTime = now := by
  unfold confirmAction
  split_ifs <;> simp

theorem confirmPress_emits (st : KeyState) (now : ℤ) (m : ℚ) (cs r i : ℕ)
    (h : (confirmPress st now m cs r i).2 ≠ []) :
    (confirmPress st now m cs r i).2.length = 1 ∧
    (confirmPress st now m cs r i).1.lastButtonTime = now := by
  unfold confirmPress at h ⊢
  split_ifs at h ⊢ <;> first
    | exact confirmAction_one _ _ _
    | simp at h

theorem confirmPress_debounced (st : KeyState) (now : ℤ) (m : ℚ) (cs r i : ℕ)
    (h : ¬ (now - st.lastButtonTime > debounceNs)) :
    confirmPress st now m cs r i = (st, []) := by
  unfold confirmPress
  rw [if_neg h]

theorem processRawText_chain_two (text : Str) (s : List Str)
    (hs : s ∈ (processRawText text).1) : s.length > 1 := by
  rw [processRawText_eq_spec] at hs
  simp only [specProcessRaw, List.mem_flatten, List.mem_map] at hs
  obtain ⟨l, ⟨⟨q, ⟨sent, _, rfl⟩, rfl⟩, hmem⟩⟩ := hs
  simp only [processSentenceSpec] at hmem
  split_ifs at hmem with h1 h2 h3
  · simp at hmem
  · rw [List.mem_singleton] at hmem
    subst hmem
    exact h3
  · simp at hmem
  · simp at hmem

/-! Claim theorems -/

/-- Claim C1, counterexample.  The claim states that the empty word produced
by a backspace is dropped only when more than one word exists (so backspace
on the single-word buffer `["a"]` would retain the emptied word, yielding
`[""]`), and that backspace on `["a", ""]` yields `["a"]`.  The code does
neither: the emptied word is dropped even when it is the sole word (so
`["a"]` becomes `[]`), and a backspace whose last word is already empty
leaves the buffer untouched (so `["a", ""]` stays `["a", ""]`). -/
theorem claim_C1_counterexample :
    backspaceBuffer [['a']] = [] ∧
    ¬ backspaceBuffer [['a']] = [[]] ∧
    backspaceBuffer [['a'], []] = [['a'], []] ∧
    ¬ backspaceBuffer [['a'], []] = [['a']] := by
  decide

/-- Claim C1, amended.  `backspace` removes the last character of the last
word; if that empties the word, the empty word is always dropped — also when
it was the sole word, leaving a buffer with zero words.  When the last word
is already empty, or the buffer is empty, backspace leaves the buffer
unchanged (and in particular `["a", ""]` stays `["a", ""]`, with no
exception in any case since the operation is a total function). -/
theorem claim_C1_amended :
    (∀ (ws : List Str) (w : Str) (c : Char),
      backspaceBuffer (ws ++ [w ++ [c]]) = if w = [] then ws else ws ++ [w]) ∧
    (∀ ws : List Str, backspaceBuffer (ws ++ [([] : Str)]) = ws ++ [[]]) ∧
    backspaceBuffer ([] : List Str) = [] := by
  refine ⟨?_, ?_, rfl⟩
  · intro ws w c
    unfold backspaceBuffer
    rw [List.getLast?_concat]
    simp only [List.dropLast_concat]
    have hlen : (w ++ [c]).length > 0 := by simp
    rw [if_pos hlen]
  · intro ws
    unfold backspaceBuffer
    rw [List.getLast?_concat]
    simp

/-- Claim C2, counterexample.  The claim states that a magnitude at or below
the ring boundary selects the inner ring, and in particular that a magnitude
of exactly `0.9` selects the inner ring.  On the input `(0.9, 0)` — whose
magnitude is exactly `0.9`, above the dead zone and at the boundary — the
decoder selects ring `1`, the outer ring, because the source tests
`magnitude < 0.9` for the inner ring. -/
theorem claim_C2_counterexample :
    (0.1 : ℝ) < Real.sqrt ((0.9 : ℝ) * 0.9 + 0 * 0) ∧
    Real.sqrt ((0.9 : ℝ) * 0.9 + 0 * 0) ≤ 0.9 ∧
    (updateSel initSel 0 0.9 0).selectedRing = 1 := by
  refine ⟨by rw [sqrt_boundary]; norm_num, by rw [sqrt_boundary], ?_⟩
  unfold updateSel
  rw [sqrt_boundary]
  rw [if_pos (by norm_num)]
  rw [if_neg (by norm_num)]

/-- Claim C2, amended.  For every input above the dead zone, a magnitude
strictly below the boundary `0.9` selects the inner ring, and a magnitude at
or above the boundary — including exactly `0.9` — selects the outer ring. -/
theorem claim_C2_amended (s : SelState) (cset : ℕ) (x y : ℝ)
    (h : 0.1 < Real.sqrt (x * x + y * y)) :
    (Real.sqrt (x * x + y * y) < 0.9 → (updateSel s cset x y).selectedRing = 0) ∧
    (0.9 ≤ Real.sqrt (x * x + y * y) → (updateSel s cset x y).selectedRing = 1) := by
  unfold updateSel
  rw [if_pos h]
  constructor
  · intro hlt
    simp only [if_pos hlt]
  · intro hge
    simp only [if_neg (not_lt.mpr hge)]

/-- Witness for claim C2: the amended theorem applied at the concrete input
`(0.9, 0)`, whose magnitude is exactly the boundary, yielding the outer
ring. -/
theorem claim_C2_witness :
    (0.1 : ℝ) < Real.sqrt ((0.9 : ℝ) * 0.9 + 0 * 0) ∧
    ((0.9 : ℝ) ≤ Real.sqrt ((0.9 : ℝ) * 0.9 + 0 * 0) →
      (updateSel initSel 0 0.9 0).selectedRing = 1) :=
  ⟨by rw [sqrt_boundary]; norm_num,
   (claim_C2_amended initSel 0 0.9 0 (by rw [sqrt_boundary]; norm_num)).2⟩

/-- Claim C3.  For every analog input whose magnitude `√(x²+y²)` is at most
the dead zone `0.1`, an update tick leaves the whole selection state — in
particular `selectedIndex` and `selectedRing` — unchanged regardless of the
input's angle, and the same holds across any sequence of successive such
ticks: selection is sticky and never reset to a default. -/
theorem claim_C3 (s : SelState) :
    (∀ (cset : ℕ) (x y : ℝ), Real.sqrt (x * x + y * y) ≤ 0.1 →
      updateSel s cset x y = s) ∧
    (∀ inps : List (ℕ × ℝ × ℝ),
      (∀ p ∈ inps, Real.sqrt (p.2.1 * p.2.1 + p.2.2 * p.2.2) ≤ 0.1) →
      updateSelSeq s inps = s) := by
  refine ⟨fun cset x y h => updateSel_deadzone s cset x y h, ?_⟩
  intro inps hall
  induction inps generalizing s with
  | nil => rfl
  | cons p t ih =>
    unfold updateSelSeq
    rw [List.foldl_cons]
    rw [updateSel_deadzone s p.1 p.2.1 p.2.2 (hall p (by simp))]
    exact ih s (fun q hq => hall q (by simp [hq]))

/-- Witness for claim C3: a centered stick `(0, 0)` has magnitude `0 ≤ 0.1`
and leaves the concrete state `initSel` unchanged. -/
theorem claim_C3_witness :
    Real.sqrt ((0 : ℝ) * 0 + 0 * 0) ≤ 0.1 ∧ updateSel initSel 0 0 0 = initSel :=
  ⟨by rw [show ((0 : ℝ) * 0 + 0 * 0) = 0 by ring, Real.sqrt_zero]; norm_num,
   (claim_C3 initSel).1 0 0 0
     (by rw [show ((0 : ℝ) * 0 + 0 * 0) = 0 by ring, Real.sqrt_zero]; norm_num)⟩

/-- Claim C4.  For every input above the dead zone, the selection angle
equals `atan2(x, -y)` normalised into `[0, 2π)` by adding `2π` when
negative, and the selected index equals
`⌊angle / (2π / N)⌋ % N` where `N` is the length of the ring that became
active on this tick (which depends on the ring and set). -/
theorem claim_C4 (s : SelState) (cset : ℕ) (x y : ℝ)
    (h : 0.1 < Real.sqrt (x * x + y * y)) :
    (updateSel s cset x y).joystickAngle =
      (if atan2 x (-y) < 0 then atan2 x (-y) + 2 * Real.pi else atan2 x (-y)) ∧
    0 ≤ (updateSel s cset x y).joystickAngle ∧
    (updateSel s cset x y).joystickAngle < 2 * Real.pi ∧
    (updateSel s cset x y).selectedIndex =
      ⌊(updateSel s cset x y).joystickAngle /
        (2 * Real.pi / ((rings cset (updateSel s cset x y).selectedRing).length : ℝ))⌋ %
        ((rings cset (updateSel s cset x y).selectedRing).length : ℤ) := by
  have hnn : 0 ≤ normalizeAngle (atan2 x (-y)) := normalizeAngle_arg_nonneg _
  have hlt : normalizeAngle (atan2 x (-y)) < 2 * Real.pi := normalizeAngle_arg_lt _
  unfold updateSel
  rw [if_pos h]
  refine ⟨rfl, hnn, hlt, ?_⟩
  simp only
  congr 1
  unfold goTruncInt
  rw [if_pos]
  apply div_nonneg hnn
  apply div_nonneg (by positivity)
  exact Nat.cast_nonneg _

/-- Witness for claim C4: the input `(1, 0)` has magnitude `1 > 0.1`, and
the theorem yields the angle equation at that concrete input. -/
theorem claim_C4_witness :
    (0.1 : ℝ) < Real.sqrt ((1 : ℝ) * 1 + 0 * 0) ∧
    (updateSel initSel 0 1 0).joystickAngle =
      (if atan2 1 (-0) < 0 then atan2 1 (-0) + 2 * Real.pi else atan2 1 (-0)) :=
  ⟨by rw [show ((1 : ℝ) * 1 + 0 * 0) = 1 by ring, Real.sqrt_one]; norm_num,
   (claim_C4 initSel 0 1 0
     (by rw [show ((1 : ℝ) * 1 + 0 * 0) = 1 by ring, Real.sqrt_one]; norm_num)).1⟩

/-- Claim C5.  A confirm press that (having passed all checks) emitted an
event stamps `lastButtonTime`; a second confirm press less than the 200 ms
debounce window later is discarded silently — no emission, no error and no
state change — so the two presses together yield exactly the one emission of
the first. -/
theorem claim_C5 (st : KeyState) (t₁ t₂ : ℤ) (m₁ m₂ : ℚ)
    (cs₁ r₁ i₁ cs₂ r₂ i₂ : ℕ)
    (h₁ : (confirmPress st t₁ m₁ cs₁ r₁ i₁).2 ≠ [])
    (h₂ : t₂ - t₁ < debounceNs) :
    (confirmPress st t₁ m₁ cs₁ r₁ i₁).2.length = 1 ∧
    confirmPress (confirmPress st t₁ m₁ cs₁ r₁ i₁).1 t₂ m₂ cs₂ r₂ i₂ =
      ((confirmPress st t₁ m₁ cs₁ r₁ i₁).1, []) := by
  obtain ⟨hlen, htime⟩ := confirmPress_emits st t₁ m₁ cs₁ r₁ i₁ h₁
  refine ⟨hlen, ?_⟩
  apply confirmPress_debounced
  rw [htime]
  omega

/-- Witness for claim C5: a first press at t = 300 ms (emitting the letter
`a`) followed by a second press 50 ms later, which is discarded. -/
theorem claim_C5_witness :
    (confirmPress st0 300000000 1 0 1 0).2 ≠ [] ∧
    (350000000 : ℤ) - 300000000 < debounceNs ∧
    ((confirmPress st0 300000000 1 0 1 0).2.length = 1 ∧
      confirmPress (confirmPress st0 300000000 1 0 1 0).1 350000000 1 0 1 0 =
        ((confirmPress st0 300000000 1 0 1 0).1, [])) :=
  ⟨by decide, by decide,
   claim_C5 st0 300000000 350000000 1 1 0 1 0 0 1 0 (by decide) (by decide)⟩

/-- Claim C6, counterexample.  The claim states that each token is stripped
of leading and trailing punctuation *except apostrophes* and that *all*
words are fed into the frequency model.  The code contradicts both: the raw
text `hi` parses to a single-token sentence that is skipped entirely, so the
word `hi` never reaches the frequency model; and in `rock' on` the trailing
apostrophe of `rock'` *is* stripped (the `TrimRight` cutset contains the
apostrophe), so the frequency model receives `rock`, not `rock'`. -/
theorem claim_C6_counterexample :
    (processRawText ("hi".toList)).2 = [] ∧
    (processRawText (("rock".toList ++ [apos]) ++ (" on".toList))).2 =
      ["rock".toList, "on".toList] := by
  constructor
  · decide
  · decide

/-- Claim C6, amended.  At startup the raw text log is split into sentences
on `.`, `!`, `?` and newline; each sentence is trimmed and tokenized on
whitespace; sentences with fewer than two tokens are skipped entirely (their
words reach neither model); each token of a processed sentence is stripped
of trailing characters from the set `,.;:"'!?` (apostrophes included) and of
leading double quotes and apostrophes only, then case-folded and dropped if
empty; each resulting sequence that still has two or more words is fed into
the transition model — so every chain sequence has length `> 1` and consists
of case-folded words — and the clean words of processed sentences are fed
into the frequency model.  The source's accumulating loop (`processRawText`)
coincides with this per-sentence description (`specProcessRaw`). -/
theorem claim_C6_amended (text : Str) :
    processRawText text = specProcessRaw text ∧
    (∀ s ∈ (processRawText text).1, s.length > 1) ∧
    (∀ s ∈ (processRawText text).1, ∃ ws : List Str, s = ws.map lowerStr) := by
  exact ⟨processRawText_eq_spec text,
    fun s hs => processRawText_chain_two text s hs,
    fun s hs => processRawText_chain_folded text s hs⟩

/-- Claim C7.  Accepting a non-empty suggestion while the non-empty word in
progress is a case-insensitive prefix of the suggestion emits exactly the
untyped remainder of the suggestion plus one trailing space; when it is not
such a prefix, one backspace per in-progress character is emitted first,
followed by the whole suggestion plus a trailing space; and in every case
the buffer afterwards ends with the suggestion followed by one new empty
word. -/
theorem claim_C7 (st : KeyState) (pred : Str) (h : pred ≠ []) :
    (∀ cw, st.currentSentence.getLast? = some cw → cw ≠ [] →
      (((lowerStr cw).isPrefixOf (lowerStr pred) = true →
          (acceptPrediction st pred).2 = [Emit.typeStr (pred.drop cw.length ++ [' '])]) ∧
       ((lowerStr cw).isPrefixOf (lowerStr pred) = false →
          (acceptPrediction st pred).2 =
            List.replicate cw.length (Emit.keyTap keyBackspace) ++
              [Emit.typeStr (pred ++ [' '])]))) ∧
    (acceptPrediction st pred).1.currentSentence.getLast? = some [] ∧
    (acceptPrediction st pred).1.currentSentence.dropLast.getLast? = some pred := by
  have hbuf : ∀ l : List Str, (l ++ [pred, []]).getLast? = some [] := by
    intro l
    rw [List.getLast?_append]
    rfl
  have hbuf2 : ∀ l : List Str, (l ++ [pred, []]).dropLast.getLast? = some pred := by
    intro l
    rw [List.dropLast_append_cons]
    simp
  refine ⟨?_, ?_, ?_⟩
  · intro cw hcw hne
    have hnil : st.currentSentence ≠ [] := by
      intro hc
      rw [hc] at hcw
      simp at hcw
    constructor
    · intro hp
      simp [acceptPrediction, hcw, h, hnil, hne, hp]
    · intro hp
      simp [acceptPrediction, hcw, h, hnil, hne, hp]
  · simp only [acceptPrediction]
    rw [if_neg h]
    split_ifs <;> simp [hbuf, hbuf2]
  · simp only [acceptPrediction]
    rw [if_neg h]
    split_ifs <;> simp [hbuf, hbuf2]

/-- Witness for claim C7: accepting `morning` while the word in progress is
`mo` emits exactly `rning ` — the five-character remainder plus one trailing
space. -/
theorem claim_C7_witness :
    "morning".toList ≠ [] ∧
    (acceptPrediction stM ("morning".toList)).2 = [Emit.typeStr ("rning ".toList)] :=
  ⟨by decide,
   (((claim_C7 stM ("morning".toList) (by decide)).1 ("mo".toList)
      (by decide) (by decide)).1 (by decide)).trans (by decide)⟩

/-- Claim C8.  When the persisted training-sentence file is absent at
startup, loading is not an error (the corpus is the empty list), the
built-in seed sentences become the training data and are trained into the
chain and frequency models, and the training data is therefore non-empty on
first run. -/
theorem claim_C8 :
    loadTrainingData none = Except.ok [] ∧
    (initModels none).trainingData = seedSentences ∧
    (initModels none).chainAdds = seedSentences ∧
    (initModels none).freqAdds =
      (seedSentences.map (fun s => s.map lowerStr)).flatten ∧
    (initModels none).trainingData ≠ [] := by
  refine ⟨rfl, by decide, by decide, by decide, by decide⟩

/-- Claim C9, counterexample.  The claim states that every operation
recording a two-word adjacency inserts only case-folded tokens into the
transition model.  But seed training adds the seed sentences verbatim, and
the seed corpus contains the sentence `["I", "am", "fine"]`: after a
first-run initialisation the uppercase word `I` is a stored context token,
and it is not fixed by case-folding. -/
theorem claim_C9_counterexample :
    "I".toList ∈ chainContextTokens (initModels none).chainAdds ∧
    lowerStr ("I".toList) ≠ "I".toList := by
  constructor
  · decide
  · decide

/-- Claim C9, amended.  Only the raw-log rehydration path case-folds what it
feeds to the transition model: every context token produced by the startup
raw-text parse is the case-folding of some raw token.  Seed training stores
the seed sentences verbatim — including the uppercase context token `I` —
and a session commit appends the current sentence to the chain exactly as
typed, without case-folding (only the frequency model is folded on those
paths). -/
theorem claim_C9_amended :
    (∀ (text : Str) (w : Str), w ∈ chainContextTokens (processRawText text).1 →
      ∃ w₀ : Str, w = lowerStr w₀) ∧
    ("I".toList ∈ chainContextTokens (initModels none).chainAdds ∧
      lowerStr ("I".toList) ≠ "I".toList) ∧
    (∀ st : KeyState, st.currentSentence.length > 1 →
      (commitSentence st).chainAdds = st.chainAdds ++ [st.currentSentence]) := by
  refine ⟨fun text w hw => chain_context_folded text w hw, ⟨by decide, by decide⟩, ?_⟩
  intro st h
  simp only [commitSentence]
  rw [if_pos h]

/-- Witness for claim C9: the raw text `good morning` produces the context
token `good`, which the amended theorem certifies to be a case-folding. -/
theorem claim_C9_witness :
    "good".toList ∈ chainContextTokens (processRawText ("good morning".toList)).1 ∧
    ∃ w₀ : Str, "good".toList = lowerStr w₀ :=
  ⟨by decide,
   claim_C9_amended.1 ("good morning".toList) ("good".toList) (by decide)⟩

/-- Claim C10.  Backspace on an empty buffer, or on a buffer whose last word
is already the empty string, is a silent no-op: the (total) buffer edit
returns the buffer unchanged, so no panic can occur. -/
theorem claim_C10 :
    backspaceBuffer ([] : List Str) = [] ∧
    (∀ cs : List Str, cs.getLast? = some [] → backspaceBuffer cs = cs) := by
  refine ⟨rfl, ?_⟩
  intro cs hcs
  unfold backspaceBuffer
  rw [hcs]
  simp

/-- Witness for claim C10: the buffer `["a", ""]`, whose last word is empty,
is left unchanged. -/
theorem claim_C10_witness :
    ([['a'], ([] : Str)] : List Str).getLast? = some [] ∧
    backspaceBuffer [['a'], []] = [['a'], []] :=
  ⟨by decide, claim_C10.2 [['a'], []] (by decide)⟩

end Control
